import Mathlib

/-
Verification of the multi-tier weight-based memory engine.

Shallow embedding of:
- the weight engine of `src/biomimetic/brain_regions/superhuman_hippocampus.py`
  (initial weight, hourly decay loop, Hebbian reinforcement, working-memory
  capacity maintenance);
- the SQL decay and reinforcement of `src/memory/biomimetic_manager.py`;
- the routing decision engine and the parallel fan-out executor of
  `src/biomimetic/agentic_thalamus.py`;
- the ranking/truncation of `tool_combo_chains/mcp_hybrid_memory.py`.

Real-valued weights are modelled over ℝ (the decay uses a real exponent
`rate ** (hours / 24)`); all discrete logic is modelled computably over ℚ.
-/

/-! ## Weight engine (superhuman_hippocampus.py)

Configuration fields mirror `SuperhumanHippocampus.__init__`:
`min_weight` (default 0.001), `weight_decay_rate` (default 0.95),
`boost_factor` (default 1.2). -/

structure HippoConfig where
  minWeight : ℝ
  decayRate : ℝ
  boostFactor : ℝ

noncomputable def defaultHippoConfig : HippoConfig :=
  { minWeight := 1 / 1000, decayRate := 19 / 20, boostFactor := 6 / 5 }

/-- Lines 360-361 of `superhuman_hippocampus.py`:
`decay_factor = self.weight_decay_rate ** (hours_since_access / 24)`;
`new_weight = max(self.min_weight, old_weight * decay_factor)`.
The exponent is a real power (`Real.rpow`). -/
noncomputable def decayFormula (cfg : HippoConfig) (w h : ℝ) : ℝ :=
  max cfg.minWeight (w * cfg.decayRate ^ (h / 24))

/-- One pass of `_weight_decay_loop` over a single memory whose
`hours_since_access` is `h`: the decay is applied only under the guard
`if hours_since_access > 1` (line 358); otherwise the weight is unchanged. -/
noncomputable def decayLoopStep (cfg : HippoConfig) (w h : ℝ) : ℝ :=
  if 1 < h then decayFormula cfg w h else w

/-- Line 164 of `superhuman_hippocampus.py` (`recall_memory` boost):
`new_weight = min(1.0, old_weight * self.boost_factor)`. -/
noncomputable def reinforce (cfg : HippoConfig) (w : ℝ) : ℝ :=
  min 1 (w * cfg.boostFactor)

/-- `_apply_weight_decay` of `biomimetic_manager.py` (lines 386-390), the SQL
`SET weight = GREATEST(0.0, weight * 0.95)` applied to one row: the floor is
`0.0`, not `min_weight`. -/
noncomputable def managerDecay (w : ℝ) : ℝ :=
  max 0 (w * (19 / 20))

/-- `_reinforce_memory` of `biomimetic_manager.py` (lines 398-400):
`if memory.weight < 1.0: memory.weight = min(1.0, memory.weight * 1.1)`. -/
noncomputable def managerReinforce (w : ℝ) : ℝ :=
  if w < 1 then min 1 (w * (11 / 10)) else w

/-- A single hippocampus weight-engine call: a decay-loop pass at a given
`hours_since_access`, or a recall-time reinforcement. -/
inductive WOp where
  | decay (h : ℝ)
  | reinforce

noncomputable def applyWOp (cfg : HippoConfig) (w : ℝ) : WOp → ℝ
  | WOp.decay h => decayLoopStep cfg w h
  | WOp.reinforce => reinforce cfg w

noncomputable def runWOps (cfg : HippoConfig) (w : ℝ) (ops : List WOp) : ℝ :=
  ops.foldl (applyWOp cfg) w

lemma decayLoopStep_bounds (cfg : HippoConfig) (h1 : cfg.minWeight ≤ 1)
    (hr0 : 0 < cfg.decayRate) (hr1 : cfg.decayRate ≤ 1)
    {w : ℝ} (hwl : cfg.minWeight ≤ w) (hwu : w ≤ 1) (h : ℝ) :
    cfg.minWeight ≤ decayLoopStep cfg w h ∧ decayLoopStep cfg w h ≤ 1 := by
  unfold decayLoopStep decayFormula
  split
  · rename_i hh
    refine ⟨le_max_left _ _, max_le h1 ?_⟩
    have hf0 : (0 : ℝ) ≤ cfg.decayRate ^ (h / 24) := Real.rpow_nonneg hr0.le _
    have hf1 : cfg.decayRate ^ (h / 24) ≤ 1 :=
      Real.rpow_le_one hr0.le hr1 (by linarith)
    nlinarith
  · exact ⟨hwl, hwu⟩

lemma reinforce_bounds (cfg : HippoConfig) (h0 : 0 < cfg.minWeight)
    (h1 : cfg.minWeight ≤ 1) (hb : 1 ≤ cfg.boostFactor)
    {w : ℝ} (hwl : cfg.minWeight ≤ w) :
    cfg.minWeight ≤ reinforce cfg w ∧ reinforce cfg w ≤ 1 := by
  unfold reinforce
  refine ⟨le_min h1 ?_, min_le_left _ _⟩
  have hw0 : (0 : ℝ) ≤ w := le_trans h0.le hwl
  calc cfg.minWeight ≤ w := hwl
    _ ≤ w * cfg.boostFactor := le_mul_of_one_le_right hw0 hb

lemma runWOps_bounds (cfg : HippoConfig) (h0 : 0 < cfg.minWeight)
    (h1 : cfg.minWeight ≤ 1) (hr0 : 0 < cfg.decayRate) (hr1 : cfg.decayRate ≤ 1)
    (hb : 1 ≤ cfg.boostFactor) :
    ∀ (ops : List WOp) (w : ℝ), cfg.minWeight ≤ w → w ≤ 1 →
      cfg.minWeight ≤ runWOps cfg w ops ∧ runWOps cfg w ops ≤ 1 := by
  intro ops
  induction ops with
  | nil => intro w hwl hwu; exact ⟨hwl, hwu⟩
  | cons op rest ih =>
    intro w hwl hwu
    have hstep : cfg.minWeight ≤ applyWOp cfg w op ∧ applyWOp cfg w op ≤ 1 := by
      cases op with
      | decay h => exact decayLoopStep_bounds cfg h1 hr0 hr1 hwl hwu h
      | reinforce => exact reinforce_bounds cfg h0 h1 hb hwl
    simpa [runWOps] using ih (applyWOp cfg w op) hstep.1 hstep.2

/-- C1 counterexample: the manager's SQL decay (`GREATEST(0.0, weight * 0.95)`)
takes a weight that is exactly at the default floor `min_weight = 0.001`
(a value inside `[minWeight, 1.0]`) strictly below `minWeight`, so the
claimed invariant `minWeight <= weight` fails after that decay call. -/
theorem manager_decay_breaks_min_weight_floor :
    defaultHippoConfig.minWeight ≤ (1 / 1000 : ℝ) ∧ (1 / 1000 : ℝ) ≤ 1 ∧
      managerDecay (1 / 1000) < defaultHippoConfig.minWeight := by
  refine ⟨le_refl _, by norm_num, ?_⟩
  have : managerDecay (1 / 1000) = 19 / 20000 := by
    unfold managerDecay
    rw [max_eq_right (by norm_num)]
    norm_num
  rw [this]
  unfold defaultHippoConfig
  norm_num

/-- C1 (amended): every sequence of hippocampus decay-loop passes and
reinforcements keeps the weight in `[minWeight, 1]` (for a configuration with
`0 < minWeight ≤ 1`, `0 < decayRate ≤ 1`, `boostFactor ≥ 1`); the manager's
SQL decay only guarantees strict positivity — it never maps a positive weight
to exactly zero, but it may fall below `minWeight`. -/
theorem weight_ops_bounds_and_manager_positivity (cfg : HippoConfig)
    (h0 : 0 < cfg.minWeight) (h1 : cfg.minWeight ≤ 1)
    (hr0 : 0 < cfg.decayRate) (hr1 : cfg.decayRate ≤ 1) (hb : 1 ≤ cfg.boostFactor) :
    (∀ (ops : List WOp) (w : ℝ), cfg.minWeight ≤ w → w ≤ 1 →
        cfg.minWeight ≤ runWOps cfg w ops ∧ runWOps cfg w ops ≤ 1) ∧
    (∀ w : ℝ, 0 < w → 0 < managerDecay w) := by
  refine ⟨runWOps_bounds cfg h0 h1 hr0 hr1 hb, ?_⟩
  intro w hw
  unfold managerDecay
  have : (0 : ℝ) < w * (19 / 20) := by nlinarith
  exact lt_max_of_lt_right this

/-- C1 witness: the bounds hold after a concrete decay-then-reinforce run
from weight 1/2 under the default configuration. -/
theorem weight_ops_bounds_witness :
    defaultHippoConfig.minWeight ≤
        runWOps defaultHippoConfig (1 / 2) [WOp.decay 48, WOp.reinforce] ∧
      runWOps defaultHippoConfig (1 / 2) [WOp.decay 48, WOp.reinforce] ≤ 1 :=
  (weight_ops_bounds_and_manager_positivity defaultHippoConfig
      (by unfold defaultHippoConfig; norm_num)
      (by unfold defaultHippoConfig; norm_num)
      (by unfold defaultHippoConfig; norm_num)
      (by unfold defaultHippoConfig; norm_num)
      (by unfold defaultHippoConfig; norm_num)).1
    [WOp.decay 48, WOp.reinforce] (1 / 2)
    (by unfold defaultHippoConfig; norm_num) (by norm_num)

/-- C3: the decay computation equals `max(minWeight, w * r^(h/24))`, and for
`0 <= h₁ < h₂` and decay rate `r ∈ (0,1)` the decayed weight at `h₂` is at most
the decayed weight at `h₁`; moreover inside the decay window (`h > 1`) the
loop step performs exactly this computation. -/
theorem decay_matches_formula_and_antitone (cfg : HippoConfig) (w h₁ h₂ : ℝ)
    (hr0 : 0 < cfg.decayRate) (hr1 : cfg.decayRate < 1)
    (hw : 0 ≤ w) (hh1 : 0 ≤ h₁) (hlt : h₁ < h₂) :
    decayFormula cfg w h₂ = max cfg.minWeight (w * cfg.decayRate ^ (h₂ / 24)) ∧
    decayFormula cfg w h₂ ≤ decayFormula cfg w h₁ ∧
    (1 < h₂ → decayLoopStep cfg w h₂ = decayFormula cfg w h₂) := by
  refine ⟨rfl, ?_, fun hwin => by unfold decayLoopStep; rw [if_pos hwin]⟩
  unfold decayFormula
  have hexp : h₁ / 24 ≤ h₂ / 24 := by linarith
  have hpow : cfg.decayRate ^ (h₂ / 24) ≤ cfg.decayRate ^ (h₁ / 24) :=
    Real.rpow_le_rpow_of_exponent_ge hr0 hr1.le hexp
  exact max_le_max (le_refl _) (mul_le_mul_of_nonneg_left hpow hw)

/-- C3 witness: at the default configuration, decaying weight 1/2 after 48
hours yields the formula value and is at most the 24-hour decay. -/
theorem decay_matches_formula_witness :
    decayFormula defaultHippoConfig (1 / 2) 48 =
        max defaultHippoConfig.minWeight
          ((1 / 2) * defaultHippoConfig.decayRate ^ ((48 : ℝ) / 24)) ∧
      decayFormula defaultHippoConfig (1 / 2) 48 ≤
        decayFormula defaultHippoConfig (1 / 2) 24 ∧
      (1 < (48 : ℝ) → decayLoopStep defaultHippoConfig (1 / 2) 48 =
        decayFormula defaultHippoConfig (1 / 2) 48) :=
  decay_matches_formula_and_antitone defaultHippoConfig (1 / 2) 24 48
    (by unfold defaultHippoConfig; norm_num)
    (by unfold defaultHippoConfig; norm_num)
    (by norm_num) (by norm_num) (by norm_num)

/-- C4: reinforcement equals `min(1.0, w * boostFactor)`; one reinforcement of
a positive weight below 1.0 strictly increases it; the result never exceeds
1.0, and neither does any number of repeated reinforcements of a weight that
starts at most 1.0; the manager's reinforcement agrees with
`min(1.0, w * 1.1)` on weights at most 1.0. -/
theorem reinforce_spec_bounds (cfg : HippoConfig) (w : ℝ)
    (hb : 1 < cfg.boostFactor) (h0 : 0 < w) :
    reinforce cfg w = min 1 (w * cfg.boostFactor) ∧
    (w < 1 → w < reinforce cfg w) ∧
    reinforce cfg w ≤ 1 ∧
    (∀ n : ℕ, w ≤ 1 → (fun x => reinforce cfg x)^[n] w ≤ 1) ∧
    (w ≤ 1 → managerReinforce w = min 1 (w * (11 / 10))) := by
  refine ⟨rfl, ?_, min_le_left _ _, ?_, ?_⟩
  · intro hw1
    have hmul : w < w * cfg.boostFactor := by nlinarith
    exact lt_min hw1 hmul
  · intro n hw1
    induction n with
    | zero => simpa using hw1
    | succ m _ =>
      rw [Function.iterate_succ_apply']
      exact min_le_left _ _
  · intro hw1
    unfold managerReinforce
    rcases lt_or_le w 1 with hlt | hge
    · rw [if_pos hlt]
    · have heq : w = 1 := le_antisymm hw1 hge
      subst heq
      rw [if_neg (lt_irrefl 1)]
      rw [min_eq_left (by norm_num)]

/-- C4 witness: reinforcing weight 1/2 under the default configuration
(boost 1.2) strictly increases it and stays at most 1. -/
theorem reinforce_spec_witness :
    (1 / 2 : ℝ) < reinforce defaultHippoConfig (1 / 2) ∧
      reinforce defaultHippoConfig (1 / 2) ≤ 1 :=
  ⟨(reinforce_spec_bounds defaultHippoConfig (1 / 2)
      (by unfold defaultHippoConfig; norm_num) (by norm_num)).2.1 (by norm_num),
    (reinforce_spec_bounds defaultHippoConfig (1 / 2)
      (by unfold defaultHippoConfig; norm_num) (by norm_num)).2.2.1⟩

/-! ## Routing decision engine (agentic_thalamus.py)

`_analyze_and_decide_routing` on a cache miss: analyze the vector packet,
select target brain regions, and choose a routing strategy. The cache key
("fingerprint") is a hash of `str(vector_packet.vector[:10])` (line 269).
Content text is modelled as the lowercased character list (the Python lowers
both the content and each keyword before matching). -/

inductive Urgency where
  | normal
  | high
  | critical
deriving DecidableEq

inductive VType where
  | semantic
  | procedural
  | emotional
  | contextual
  | mixed
deriving DecidableEq

inductive Region where
  | brainstem
  | hippocampus
  | neocortex
  | cerebellum
  | amygdala
deriving DecidableEq

/-- The context dict of a vector packet, reduced to the keys the router reads:
`urgency` (default "normal"), `priority` (default 0.5), `amplification`
(default 1.0), plus the total number of keys (`len(context)`). -/
structure RoutingContext where
  urgency : Urgency
  priority : ℚ
  amplification : ℚ
  size : ℕ
deriving DecidableEq

structure VectorPacket where
  content : List Char
  vector : List ℚ
  vtype : VType
  priority : ℚ
  context : RoutingContext
deriving DecidableEq

/-- Python builtin `min(a, b)` on rationals, written so that it evaluates. -/
def ratMin (a b : ℚ) : ℚ :=
  if a ≤ b then a else b

/-- Python substring membership `needle in hay` on character lists. -/
def containsSub (needle : List Char) : List Char → Bool
  | [] => needle.isEmpty
  | c :: t => needle.isPrefixOf (c :: t) || containsSub needle t

def semanticKeywords : List (List Char) :=
  ["meaning", "understand", "concept", "knowledge", "semantic"].map String.toList

def proceduralKeywords : List (List Char) :=
  ["step", "process", "execute", "perform", "skill", "procedure"].map String.toList

def emotionalKeywords : List (List Char) :=
  ["feel", "emotion", "important", "critical", "urgent", "priority"].map String.toList

def autonomicKeywords : List (List Char) :=
  ["system", "monitor", "automatic", "background", "process"].map String.toList

structure ContentSignals where
  semanticSignals : ℕ
  proceduralSignals : ℕ
  emotionalSignals : ℕ
  autonomicSignals : ℕ
  contentLength : ℕ
deriving DecidableEq

/-- `_analyze_content_for_routing`: keyword-presence counts per category. -/
def analyzeContentForRouting (content : List Char) : ContentSignals :=
  { semanticSignals := semanticKeywords.countP (fun kw => containsSub kw content)
    proceduralSignals := proceduralKeywords.countP (fun kw => containsSub kw content)
    emotionalSignals := emotionalKeywords.countP (fun kw => containsSub kw content)
    autonomicSignals := autonomicKeywords.countP (fun kw => containsSub kw content)
    contentLength := content.length }

structure ContextSignals where
  urgency : Urgency
  priority : ℚ
  expectedAmplification : ℚ
  confidence : ℚ
deriving DecidableEq

/-- `_extract_context_signals`: base confidence 0.5, raised by 0.3 (capped at
1.0) when the context has more than 3 keys. -/
def extractContextSignals (ctx : RoutingContext) : ContextSignals :=
  { urgency := ctx.urgency
    priority := ctx.priority
    expectedAmplification := ctx.amplification
    confidence := if 3 < ctx.size then ratMin 1 (1 / 2 + 3 / 10) else 1 / 2 }

/-- `np.count_nonzero(vector) / len(vector)` from `_analyze_vector_properties`. -/
def vectorSparsity (v : List ℚ) : ℚ :=
  ((v.filter (fun x => x ≠ 0)).length : ℚ) / (v.length : ℚ)

structure VectorAnalysis where
  contentSignals : ContentSignals
  contextSignals : ContextSignals
  routingConfidence : ℚ
deriving DecidableEq

/-- `_analyze_vector_properties`, restricted to the fields the region selection
and strategy choice read: `routing_confidence =
min(1.0, (vector_sparsity + context_signals.confidence) / 2)`. -/
def analyzeVectorProperties (p : VectorPacket) : VectorAnalysis :=
  { contentSignals := analyzeContentForRouting p.content
    contextSignals := extractContextSignals p.context
    routingConfidence :=
      ratMin 1 ((vectorSparsity p.vector + (extractContextSignals p.context).confidence) / 2) }

/-- `_select_target_regions`: brainstem and hippocampus are always included;
neocortex, cerebellum and amygdala are added on signal conditions; a mixed
vector type or `expected_amplification > 100` adds all three. -/
def selectTargetRegions (a : VectorAnalysis) (p : VectorPacket) : Finset Region :=
  let s : Finset Region := {Region.brainstem, Region.hippocampus}
  let s :=
    if 0 < a.contentSignals.semanticSignals ∨ p.vtype = VType.semantic then
      insert Region.neocortex s
    else s
  let s :=
    if 0 < a.contentSignals.proceduralSignals ∨ p.vtype = VType.procedural then
      insert Region.cerebellum s
    else s
  let s :=
    if 0 < a.contentSignals.emotionalSignals ∨ (7 / 10 : ℚ) < a.contextSignals.priority ∨
        p.vtype = VType.emotional then
      insert Region.amygdala s
    else s
  if p.vtype = VType.mixed ∨ (100 : ℚ) < a.contextSignals.expectedAmplification then
    s ∪ {Region.neocortex, Region.cerebellum, Region.amygdala}
  else s

inductive Strategy where
  | parallelAll
  | selectiveRouting
  | priorityBased
  | confidenceBased
deriving DecidableEq

/-- `_select_routing_strategy`: urgency high/critical or context priority > 0.8
forces `PARALLEL_ALL`; otherwise routing confidence > 0.8 gives
`SELECTIVE_ROUTING`; otherwise `PARALLEL_ALL`. -/
def selectRoutingStrategy (a : VectorAnalysis) : Strategy :=
  if a.contextSignals.urgency = Urgency.high ∨ a.contextSignals.urgency = Urgency.critical ∨
      (4 / 5 : ℚ) < a.contextSignals.priority then
    Strategy.parallelAll
  else if (4 / 5 : ℚ) < a.routingConfidence then
    Strategy.selectiveRouting
  else
    Strategy.parallelAll

/-- `_analyze_and_decide_routing` on a cache miss, restricted to the
`(target_regions, routing_strategy)` pair the claim is about. -/
def analyzeAndDecideRouting (p : VectorPacket) : Finset Region × Strategy :=
  let a := analyzeVectorProperties p
  (selectTargetRegions a p, selectRoutingStrategy a)

/-- The routing-cache key of line 269 is derived from `vector[:10]` only. -/
def routingFingerprint (p : VectorPacket) : List ℚ :=
  p.vector.take 10

def cexPacketSemantic : VectorPacket :=
  { content := "meaning".toList
    vector := [0, 0]
    vtype := VType.contextual
    priority := 1 / 2
    context := { urgency := Urgency.normal, priority := 1 / 2, amplification := 1, size := 0 } }

def cexPacketPlain : VectorPacket :=
  { content := []
    vector := [0, 0]
    vtype := VType.contextual
    priority := 1 / 2
    context := { urgency := Urgency.normal, priority := 1 / 2, amplification := 1, size := 0 } }

/-- C5 counterexample: two packets with the same cache fingerprint
(`vector[:10]`) and the same context, with the cache cleared (so the decision
is recomputed), get different target regions — the routing decision is not a
function of (fingerprint, context), because the content keyword signals also
feed it. -/
theorem routing_decision_not_determined_by_fingerprint :
    routingFingerprint cexPacketSemantic = routingFingerprint cexPacketPlain ∧
      cexPacketSemantic.context = cexPacketPlain.context ∧
      analyzeAndDecideRouting cexPacketSemantic ≠ analyzeAndDecideRouting cexPacketPlain := by
  refine ⟨rfl, rfl, ?_⟩
  have hcsA : analyzeContentForRouting cexPacketSemantic.content =
      { semanticSignals := 1, proceduralSignals := 0, emotionalSignals := 0,
        autonomicSignals := 0, contentLength := 7 } := by decide
  have hcsB : analyzeContentForRouting cexPacketPlain.content =
      { semanticSignals := 0, proceduralSignals := 0, emotionalSignals := 0,
        autonomicSignals := 0, contentLength := 0 } := by decide
  have hA : (analyzeAndDecideRouting cexPacketSemantic).1 =
      insert Region.neocortex {Region.brainstem, Region.hippocampus} := by
    simp only [analyzeAndDecideRouting, analyzeVectorProperties, selectTargetRegions, hcsA]
    norm_num [cexPacketSemantic, extractContextSignals]
    simp
  have hB : (analyzeAndDecideRouting cexPacketPlain).1 =
      {Region.brainstem, Region.hippocampus} := by
    simp only [analyzeAndDecideRouting, analyzeVectorProperties, selectTargetRegions, hcsB]
    norm_num [cexPacketPlain, extractContextSignals]
    simp
  intro h
  have hf := congrArg Prod.fst h
  rw [hA, hB] at hf
  have hmem : Region.neocortex ∈ ({Region.brainstem, Region.hippocampus} : Finset Region) :=
    hf ▸ Finset.mem_insert_self _ _
  simp at hmem

/-- C5 (amended): with the cache cleared, the routing decision is a pure
function of the full analysis input — content text, vector, vector type and
context; in particular it does not read the packet's own priority field. -/
theorem routing_decision_deterministic_in_full_input (p q : VectorPacket)
    (hc : p.content = q.content) (hv : p.vector = q.vector)
    (ht : p.vtype = q.vtype) (hx : p.context = q.context) :
    analyzeAndDecideRouting p = analyzeAndDecideRouting q := by
  cases p with
  | mk pc pv pt pp px =>
    cases q with
    | mk qc qv qt qp qx =>
      simp only at hc hv ht hx
      subst hc; subst hv; subst ht; subst hx
      simp [analyzeAndDecideRouting, analyzeVectorProperties, selectTargetRegions,
        selectRoutingStrategy, analyzeContentForRouting, extractContextSignals,
        vectorSparsity]

def cexPacketOtherPriority : VectorPacket :=
  { cexPacketSemantic with priority := 9 / 10 }

/-- C5 witness: two concrete packets that agree on content, vector, type and
context but differ in the priority field get the identical decision. -/
theorem routing_decision_deterministic_witness :
    analyzeAndDecideRouting cexPacketSemantic = analyzeAndDecideRouting cexPacketOtherPriority :=
  routing_decision_deterministic_in_full_input cexPacketSemantic cexPacketOtherPriority
    rfl rfl rfl rfl

/-- C6: for every analysis result and every packet, the selected target
regions contain both the always-included working/fast tier (hippocampus) and
the always-included priority/assessment tier (brainstem), regardless of the
content signals. -/
theorem default_regions_always_selected (a : VectorAnalysis) (p : VectorPacket) :
    Region.brainstem ∈ selectTargetRegions a p ∧
      Region.hippocampus ∈ selectTargetRegions a p := by
  unfold selectTargetRegions
  constructor <;> (split <;> split <;> split <;> split <;> simp)

/-- C7: the strategy is `SELECTIVE_ROUTING` only when the derived routing
confidence exceeds the 0.8 threshold; high/critical urgency forces
`PARALLEL_ALL`, and so does confidence at most 0.8. -/
theorem strategy_selective_only_high_confidence (a : VectorAnalysis) :
    (selectRoutingStrategy a = Strategy.selectiveRouting →
      (4 / 5 : ℚ) < a.routingConfidence) ∧
    (a.contextSignals.urgency = Urgency.high ∨ a.contextSignals.urgency = Urgency.critical →
      selectRoutingStrategy a = Strategy.parallelAll) ∧
    (a.routingConfidence ≤ 4 / 5 → selectRoutingStrategy a = Strategy.parallelAll) := by
  unfold selectRoutingStrategy
  split
  · rename_i hurg
    refine ⟨fun h => by simp at h, fun _ => rfl, fun _ => rfl⟩
  · rename_i hurg
    split
    · rename_i hconf
      refine ⟨fun _ => hconf, ?_, ?_⟩
      · intro hu
        exact absurd (hu.elim Or.inl (fun h => Or.inr (Or.inl h))) hurg
      · intro hle
        exact absurd hconf (not_lt.mpr hle)
    · exact ⟨fun h => by simp at h, fun _ => rfl, fun _ => rfl⟩

def cexAnalysisLowConf : VectorAnalysis :=
  { contentSignals :=
      { semanticSignals := 0, proceduralSignals := 0, emotionalSignals := 0,
        autonomicSignals := 0, contentLength := 0 }
    contextSignals :=
      { urgency := Urgency.normal, priority := 1 / 2, expectedAmplification := 1,
        confidence := 1 / 2 }
    routingConfidence := 1 / 2 }

/-- C7 witness: a concrete low-confidence analysis yields `PARALLEL_ALL`. -/
theorem strategy_witness_low_confidence :
    selectRoutingStrategy cexAnalysisLowConf = Strategy.parallelAll :=
  (strategy_selective_only_high_confidence cexAnalysisLowConf).2.2 (by norm_num [cexAnalysisLowConf])

/-! ## Fan-out executor (agentic_thalamus.py `_execute_parallel_processing`)

One task per target region that has a transformed input and an available
processor; each task's outcome (the brain-region call succeeding with a value
or raising) is given by `outcome`. A failing task is recorded as
`{success: false, error}`; `_cognitive_synthesis` then keeps only the regions
whose entry has `success = true`. No tier failure raises out of
`route_vector_intelligence`. Per-region results are abstracted to ℕ. -/

structure TierResult where
  success : Bool
  error : Option String
  value : Option ℕ
deriving DecidableEq

/-- The regions for which a processing task is created (line 671-676): the
target regions that are both in `transformed_inputs` and in
`self.brain_regions`. -/
def taskRegions (targets : List Region) (hasInput available : Region → Bool) : List Region :=
  targets.filter (fun r => hasInput r && available r)

/-- Lines 687-693: a completed task that returned a value is recorded as
`{result, success: true}`, one that raised as `{error, success: false}`. -/
def mkTierResult : Except String ℕ → TierResult
  | Except.ok v => { success := true, error := none, value := some v }
  | Except.error e => { success := false, error := some e, value := none }

/-- `_execute_parallel_processing`: run all tasks and collect the per-region
result records; the `_meta` bookkeeping entry is omitted. -/
def executeParallelProcessing (targets : List Region) (hasInput available : Region → Bool)
    (outcome : Region → Except String ℕ) : List (Region × TierResult) :=
  (taskRegions targets hasInput available).map fun r => (r, mkTierResult (outcome r))

/-- `_cognitive_synthesis` lines 777-780: the regions kept for synthesis are
exactly those whose result has `success = true`. -/
def successfulRegions (results : List (Region × TierResult)) : List Region :=
  (results.filter fun pr => pr.2.success).map Prod.fst

/-- `route_vector_intelligence` restricted to the fan-out and synthesis steps:
tier failures never raise, so the function always returns `Except.ok` with the
per-region results and the synthesized successful-region list. -/
def routeVectorIntelligence (targets : List Region) (hasInput available : Region → Bool)
    (outcome : Region → Except String ℕ) :
    Except String (List (Region × TierResult) × List Region) :=
  let res := executeParallelProcessing targets hasInput available outcome
  Except.ok (res, successfulRegions res)

/-- `BiomimeticMemoryManager.recall_memory` result merging (lines 235-243):
per-region searches run with `return_exceptions=True`; list results are
concatenated and exceptions are silently skipped. -/
def combineRecallResults (perRegion : List (Except String (List ℕ))) : List ℕ :=
  perRegion.foldl
    (fun acc r =>
      match r with
      | Except.ok l => acc ++ l
      | Except.error _ => acc)
    []

/-- C2 counterexample: when every target tier fails, the fan-out still returns
`Except.ok` (zero successful regions) and the manager's read path returns the
empty list — total fan-out failure is not surfaced to the caller as a hard
error, contradicting the claim. -/
theorem total_failure_not_hard_error :
    (routeVectorIntelligence [Region.brainstem, Region.hippocampus] (fun _ => true)
        (fun _ => true) (fun _ => Except.error "tier unavailable")).isOk = true ∧
      successfulRegions (executeParallelProcessing [Region.brainstem, Region.hippocampus]
        (fun _ => true) (fun _ => true) (fun _ => Except.error "tier unavailable")) = [] ∧
      combineRecallResults [Except.error "down", Except.error "down", Except.error "down"] = [] :=
  ⟨rfl, rfl, rfl⟩

/-- C2 (amended): the fan-out records every failing tier as
`{success: false, error}`, excludes it from the synthesized successful-region
list, includes every succeeding tier there, and always returns `Except.ok`,
even when zero tiers succeed. -/
theorem fanout_failure_recorded_not_fatal (targets : List Region)
    (hasInput available : Region → Bool) (outcome : Region → Except String ℕ) :
    (routeVectorIntelligence targets hasInput available outcome).isOk = true ∧
    (∀ r e, r ∈ taskRegions targets hasInput available → outcome r = Except.error e →
      (r, ({ success := false, error := some e, value := none } : TierResult)) ∈
          executeParallelProcessing targets hasInput available outcome ∧
        r ∉ successfulRegions (executeParallelProcessing targets hasInput available outcome)) ∧
    (∀ r v, r ∈ taskRegions targets hasInput available → outcome r = Except.ok v →
      r ∈ successfulRegions (executeParallelProcessing targets hasInput available outcome)) := by
  refine ⟨rfl, ?_, ?_⟩
  · intro r e hr hout
    constructor
    · simp only [executeParallelProcessing, List.mem_map]
      refine ⟨r, hr, ?_⟩
      rw [hout]
      rfl
    · intro hmem
      simp only [successfulRegions, executeParallelProcessing, List.mem_map,
        List.mem_filter] at hmem
      obtain ⟨x, ⟨⟨a, ha, hga⟩, hsucc⟩, hx1⟩ := hmem
      subst hga
      have har : a = r := hx1
      subst har
      rw [hout] at hsucc
      simp [mkTierResult] at hsucc
  · intro r v hr hout
    simp only [successfulRegions, executeParallelProcessing, List.mem_map, List.mem_filter]
    refine ⟨(r, mkTierResult (outcome r)), ⟨⟨r, hr, rfl⟩, ?_⟩, rfl⟩
    rw [hout]
    rfl

/-- C2 witness: with the brainstem tier failing and the hippocampus tier
succeeding, the failing tier is recorded with `success = false` and excluded
from synthesis. -/
theorem fanout_failure_witness :
    (Region.brainstem, ({ success := false, error := some "down", value := none } : TierResult)) ∈
        executeParallelProcessing [Region.brainstem, Region.hippocampus] (fun _ => true)
          (fun _ => true)
          (fun r => if r = Region.brainstem then Except.error "down" else Except.ok 1) ∧
      Region.brainstem ∉ successfulRegions
        (executeParallelProcessing [Region.brainstem, Region.hippocampus] (fun _ => true)
          (fun _ => true)
          (fun r => if r = Region.brainstem then Except.error "down" else Except.ok 1)) :=
  (fanout_failure_recorded_not_fatal [Region.brainstem, Region.hippocampus] (fun _ => true)
      (fun _ => true)
      (fun r => if r = Region.brainstem then Except.error "down" else Except.ok 1)).2.1
    Region.brainstem "down" (by decide) rfl

/-! ## Ingest (biomimetic_manager.py `store_memory`)

The manager's store pipeline with the backing tiers healthy: brainstem
preprocessing is `content.strip()`, amygdala evaluation returns 0.5, the entry
starts at weight 1.0 and the time-based id `mem_<microsecond counter>` is
returned. There is no content validation anywhere on the path (nor in the MCP
handlers that call it): empty content is stored like any other. -/

structure ManagerEntry where
  id : String
  content : String
  contentType : String
  weight : ℚ
  emotionalSignificance : ℚ
deriving DecidableEq

inductive StoreError where
  | invalidInput
  | backendFailure
deriving DecidableEq

def brainstemPreprocess (content : String) : String :=
  content.trim

def amygdalaEvaluate (_content : String) : ℚ :=
  1 / 2

/-- `store_memory(content, content_type, context)` (lines 166-209) with `now`
the microsecond clock reading used for the id. -/
def storeMemoryMgr (now : ℕ) (content contentType : String) : Except StoreError ManagerEntry :=
  let processed := brainstemPreprocess content
  let emotional := amygdalaEvaluate processed
  Except.ok
    { id := "mem_" ++ toString now
      content := processed
      contentType := contentType
      weight := 1
      emotionalSignificance := emotional }

/-- C8 counterexample: storing empty content does not return `InvalidInput`;
the write is accepted and an id is returned. -/
theorem store_accepts_empty_content :
    (storeMemoryMgr 0 "" "text").isOk = true ∧
      storeMemoryMgr 0 "" "text" ≠ Except.error StoreError.invalidInput := by
  constructor
  · rfl
  · intro h
    exact Except.noConfusion h

/-- C8 (amended): `store_memory` accepts every content — empty included — and
returns the time-based record id; no input is rejected as `InvalidInput`. -/
theorem store_always_returns_id (now : ℕ) (content contentType : String) :
    (storeMemoryMgr now content contentType).isOk = true ∧
      (storeMemoryMgr now content contentType).map ManagerEntry.id =
        Except.ok ("mem_" ++ toString now) ∧
      storeMemoryMgr now content contentType ≠ Except.error StoreError.invalidInput := by
  refine ⟨rfl, rfl, ?_⟩
  intro h
  exact Except.noConfusion h

/-! ## Read-path ranking (mcp_hybrid_memory.py `recall_memory`)

After merging direct vector hits and graph-expanded hits, the results are
sorted by `similarity * 0.7 + importance * 0.3` descending with Python's
stable `list.sort` (ties keep merge order) and truncated to `max_results`
(lines 451-457). The result records carry no last-access field and the sort
does not consult one; `lastAccessed` is modelled to state the claim. -/

structure RankedEntry where
  name : String
  similarity : ℚ
  importance : ℚ
  lastAccessed : ℕ
deriving DecidableEq

/-- The sort key of line 452: `x["similarity"] * 0.7 + x["importance"] * 0.3`. -/
def scoreFn (e : RankedEntry) : ℚ :=
  e.similarity * (7 / 10) + e.importance * (3 / 10)

/-- Lines 452 and 457: stable descending sort by the combined score, then
truncation to the caller's `max_results`. `List.insertionSort` is stable, like
Python's `list.sort`. -/
def rankResults (rs : List RankedEntry) (maxResults : ℕ) : List RankedEntry :=
  (List.insertionSort (fun a b => scoreFn b ≤ scoreFn a) rs).take maxResults

def cexEntryOld : RankedEntry :=
  { name := "a", similarity := 1 / 2, importance := 1 / 2, lastAccessed := 10 }

def cexEntryNew : RankedEntry :=
  { name := "b", similarity := 1 / 2, importance := 1 / 2, lastAccessed := 20 }

/-- C9 counterexample: two merged results with equal combined scores where the
earlier-merged entry was accessed less recently: the sort keeps the merge
order, so the less recently accessed entry stays first — ties are not broken
by most-recent `lastAccessedAt`. -/
theorem ranking_ties_ignore_last_accessed :
    scoreFn cexEntryOld = scoreFn cexEntryNew ∧
      cexEntryOld.lastAccessed < cexEntryNew.lastAccessed ∧
      rankResults [cexEntryOld, cexEntryNew] 20 = [cexEntryOld, cexEntryNew] ∧
      rankResults [cexEntryOld, cexEntryNew] 20 ≠ [cexEntryNew, cexEntryOld] := by
  have hsc : scoreFn cexEntryNew ≤ scoreFn cexEntryOld := by
    norm_num [scoreFn, cexEntryOld, cexEntryNew]
  have hne : cexEntryOld ≠ cexEntryNew := by
    intro hcontra
    have hname := congrArg RankedEntry.name hcontra
    simp [cexEntryOld, cexEntryNew] at hname
  have heval : rankResults [cexEntryOld, cexEntryNew] 20 = [cexEntryOld, cexEntryNew] := by
    simp [rankResults, List.insertionSort, List.orderedInsert, hsc]
  refine ⟨by norm_num [scoreFn, cexEntryOld, cexEntryNew], by norm_num [cexEntryOld, cexEntryNew],
    heval, ?_⟩
  intro hswap
  rw [heval] at hswap
  exact hne (List.cons.injEq _ _ _ _ ▸ hswap).1

/-- C9 (amended): the returned list is the stable descending sort by
`similarity * 0.7 + importance * 0.3` truncated to `max_results`: it is sorted
non-increasingly by that score, has at most `max_results` entries, and any
correctly-ordered pair of the merge list (in particular any tied pair, in
merge order) survives as a pair of the sorted list — ties keep the merge
order, not the most recent `lastAccessedAt`. -/
theorem ranking_sorted_truncated_stable (rs : List RankedEntry) (n : ℕ) :
    rankResults rs n =
        (List.insertionSort (fun a b => scoreFn b ≤ scoreFn a) rs).take n ∧
      List.Sorted (fun a b => scoreFn b ≤ scoreFn a) (rankResults rs n) ∧
      (rankResults rs n).length ≤ n ∧
      (∀ a b, List.Sublist [a, b] rs → scoreFn b ≤ scoreFn a →
        List.Sublist [a, b] (List.insertionSort (fun a b => scoreFn b ≤ scoreFn a) rs)) := by
  haveI hto : IsTotal RankedEntry (fun a b => scoreFn b ≤ scoreFn a) :=
    ⟨fun a b => le_total (scoreFn b) (scoreFn a)⟩
  haveI htr : IsTrans RankedEntry (fun a b => scoreFn b ≤ scoreFn a) :=
    ⟨fun _ _ _ h1 h2 => le_trans h2 h1⟩
  refine ⟨rfl, ?_, ?_, ?_⟩
  · exact List.Pairwise.sublist (List.take_sublist _ _) (List.sorted_insertionSort _ rs)
  · simp only [rankResults]
    rw [List.length_take]
    exact min_le_left _ _
  · exact fun a b hsub hsc => List.pair_sublist_insertionSort hsc hsub

/-- C9 witness: for a concrete correctly-ordered pair, the pair survives the
sort, and the output length respects the truncation bound. -/
theorem ranking_witness :
    List.Sublist [cexEntryOld, cexEntryNew]
        (List.insertionSort (fun a b => scoreFn b ≤ scoreFn a) [cexEntryOld, cexEntryNew]) ∧
      (rankResults [cexEntryOld, cexEntryNew] 1).length ≤ 1 :=
  ⟨(ranking_sorted_truncated_stable [cexEntryOld, cexEntryNew] 1).2.2.2 cexEntryOld cexEntryNew
      (List.Sublist.refl _) (by norm_num [scoreFn, cexEntryOld, cexEntryNew]),
    (ranking_sorted_truncated_stable [cexEntryOld, cexEntryNew] 1).2.2.1⟩

/-! ## Working-memory capacity (superhuman_hippocampus.py)

`store_memory` (lines 90-139) computes the initial weight, stores the full
memory entry under `superhuman:memory:<id>`, writes the weight into the global
`superhuman:weight_index` sorted set, and — when the weight reaches the
conscious threshold 0.8 — adds the id to the `superhuman:working_memory`
sorted set, evicting that set's lowest-ranked member when its cardinality
exceeds `max_working_items` (`_update_working_memory`, lines 381-391).
Redis sorted sets are modelled as association lists with distinct ids; the
lowest rank is the least (score, member) pair, as in Redis. -/

structure WorkingConfig where
  maxWorkingItems : ℕ

def defaultWorkingConfig : WorkingConfig :=
  { maxWorkingItems := 7 }

structure MemEntry where
  content : String
  weight : ℚ
deriving DecidableEq

structure HippoState where
  memories : List (String × MemEntry)
  weightIndex : List (String × ℚ)
  working : List (String × ℚ)
deriving DecidableEq

/-- Redis `SET`-like / `ZADD`-like overwrite of one key of an association
list: an existing entry's value is replaced, a new key is appended. -/
def upsert {β : Type} (id : String) (x : β) : List (String × β) → List (String × β)
  | [] => [(id, x)]
  | (i, y) :: rest => if i = id then (i, x) :: rest else (i, y) :: upsert id x rest

/-- Redis `GET`-like lookup. -/
def lookupA {β : Type} (pid : String) : List (String × β) → Option β
  | [] => none
  | (i, y) :: rest => if i = pid then some y else lookupA pid rest

/-- The least entry of a sorted set, ordered by (score, member) as Redis ranks
members; `p` is the running minimum. -/
def minZ (p : String × ℚ) : List (String × ℚ) → String × ℚ
  | [] => p
  | q :: rest => minZ (if q.2 < p.2 ∨ (q.2 = p.2 ∧ q.1 < p.1) then q else p) rest

/-- `ZREMRANGEBYRANK key 0 0`: remove the lowest-ranked member. -/
def zremLowest : List (String × ℚ) → List (String × ℚ)
  | [] => []
  | p :: rest => (p :: rest).erase (minZ p rest)

/-- `_calculate_initial_weight` (lines 303-321): hint plus importance, context
and length boosts, capped at 1.0. -/
def calculateInitialWeight (content : String) (critical urgent : Bool)
    (importance hint : ℚ) : ℚ :=
  ratMin 1 (hint + importance * (3 / 10) + (if critical || urgent then 2 / 10 else 0) +
    ratMin (1 / 10) ((content.length : ℚ) / 1000))

/-- `_update_working_memory` (lines 381-391): insert the id into the working
sorted set when the weight reaches the conscious threshold, then drop the
lowest-ranked member if the capacity `max_working_items` is exceeded. -/
def updateWorkingMemory (cfg : WorkingConfig) (s : HippoState) (id : String) (w : ℚ) :
    HippoState :=
  if (8 / 10 : ℚ) ≤ w then
    let wkg := upsert id w s.working
    if cfg.maxWorkingItems < wkg.length then { s with working := zremLowest wkg }
    else { s with working := wkg }
  else s

/-- `store_memory` (lines 90-139), restricted to the state it mutates: the
memory record store, the global weight index, and the working-memory set
(touched only when the computed weight reaches the conscious threshold). -/
def storeMemoryH (cfg : WorkingConfig) (s : HippoState) (id content : String)
    (critical urgent : Bool) (importance hint : ℚ) : HippoState :=
  let w := calculateInitialWeight content critical urgent importance hint
  let s1 : HippoState :=
    { s with
      memories := upsert id { content := content, weight := w } s.memories
      weightIndex := upsert id w s.weightIndex }
  if (8 / 10 : ℚ) ≤ w then updateWorkingMemory cfg s1 id w else s1

lemma upsert_length_le {β : Type} (id : String) (x : β) :
    ∀ l : List (String × β), (upsert id x l).length ≤ l.length + 1 := by
  intro l
  induction l with
  | nil => simp [upsert]
  | cons p rest ih =>
    obtain ⟨i, y⟩ := p
    simp only [upsert]
    split
    · simp
    · simpa using Nat.succ_le_succ ih

lemma lookupA_upsert_ne {β : Type} (id pid : String) (x : β) (hne : pid ≠ id) :
    ∀ l : List (String × β), lookupA pid (upsert id x l) = lookupA pid l := by
  intro l
  induction l with
  | nil => simp [upsert, lookupA, Ne.symm hne]
  | cons p rest ih =>
    obtain ⟨i, y⟩ := p
    simp only [upsert]
    split
    · rename_i hi
      subst hi
      simp only [lookupA, if_neg (Ne.symm hne)]
    · simp only [lookupA]
      split
      · rfl
      · exact ih

lemma minZ_le_base : ∀ (l : List (String × ℚ)) (p : String × ℚ), (minZ p l).2 ≤ p.2 := by
  intro l
  induction l with
  | nil => intro p; simp [minZ]
  | cons b rest ih =>
    intro p
    simp only [minZ]
    split
    · rename_i hc
      rcases hc with hlt | ⟨heq, _⟩
      · exact le_trans (ih b) hlt.le
      · exact le_trans (ih b) heq.le
    · exact ih p

lemma minZ_le_mem : ∀ (l : List (String × ℚ)) (p q : String × ℚ), q ∈ l →
    (minZ p l).2 ≤ q.2 := by
  intro l
  induction l with
  | nil => intro p q hq; simp at hq
  | cons b rest ih =>
    intro p q hq
    simp only [minZ]
    rcases List.mem_cons.mp hq with hqb | hqrest
    · subst hqb
      split
      · exact minZ_le_base rest _
      · rename_i hc
        have hble : p.2 ≤ q.2 := le_of_not_lt (fun h => hc (Or.inl h))
        exact le_trans (minZ_le_base rest p) hble
    · exact ih _ q hqrest

lemma minZ_mem : ∀ (l : List (String × ℚ)) (p : String × ℚ), minZ p l ∈ p :: l := by
  intro l
  induction l with
  | nil => intro p; simp [minZ]
  | cons b rest ih =>
    intro p
    simp only [minZ]
    split
    · rcases List.mem_cons.mp (ih b) with h1 | h2
      · rw [h1]
        exact List.mem_cons_of_mem _ (List.mem_cons_self _ _)
      · exact List.mem_cons_of_mem _ (List.mem_cons_of_mem _ h2)
    · rcases List.mem_cons.mp (ih p) with h1 | h2
      · rw [h1]
        exact List.mem_cons_self _ _
      · exact List.mem_cons_of_mem _ (List.mem_cons_of_mem _ h2)

lemma zremLowest_spec (l : List (String × ℚ)) (hl : l ≠ []) :
    ∃ m, m ∈ l ∧ (∀ q ∈ l, m.2 ≤ q.2) ∧ zremLowest l = l.erase m := by
  cases l with
  | nil => exact absurd rfl hl
  | cons p rest =>
    refine ⟨minZ p rest, minZ_mem rest p, ?_, rfl⟩
    intro q hq
    rcases List.mem_cons.mp hq with h1 | h2
    · rw [h1]
      exact minZ_le_base rest p
    · exact minZ_le_mem rest p q h2

lemma zremLowest_length (l : List (String × ℚ)) (hl : l ≠ []) :
    (zremLowest l).length = l.length - 1 := by
  cases l with
  | nil => exact absurd rfl hl
  | cons p rest =>
    simp only [zremLowest]
    exact List.length_erase_of_mem (minZ_mem rest p)

lemma updateWorkingMemory_spec (cfg : WorkingConfig) (s : HippoState) (id : String) (w : ℚ)
    (hlen : s.working.length ≤ cfg.maxWorkingItems) :
    (updateWorkingMemory cfg s id w).working.length ≤ cfg.maxWorkingItems ∧
    (updateWorkingMemory cfg s id w).memories = s.memories ∧
    (updateWorkingMemory cfg s id w).weightIndex = s.weightIndex ∧
    ((8 / 10 : ℚ) ≤ w → cfg.maxWorkingItems < (upsert id w s.working).length →
      ∃ m, m ∈ upsert id w s.working ∧ (∀ q ∈ upsert id w s.working, m.2 ≤ q.2) ∧
        (updateWorkingMemory cfg s id w).working = (upsert id w s.working).erase m) := by
  unfold updateWorkingMemory
  by_cases hcw : (8 / 10 : ℚ) ≤ w
  · rw [if_pos hcw]
    by_cases hcap : cfg.maxWorkingItems < (upsert id w s.working).length
    · rw [if_pos hcap]
      have hne : upsert id w s.working ≠ [] := by
        intro h
        rw [h] at hcap
        simp at hcap
      refine ⟨?_, rfl, rfl, ?_⟩
      · rw [zremLowest_length _ hne]
        have := upsert_length_le id w s.working
        omega
      · intro _ _
        obtain ⟨m, hm, hmin, heq⟩ := zremLowest_spec _ hne
        exact ⟨m, hm, hmin, heq⟩
    · rw [if_neg hcap]
      refine ⟨?_, rfl, rfl, ?_⟩
      · exact le_of_not_lt hcap
      · intro _ hcap'
        exact absurd hcap' hcap
  · rw [if_neg hcw]
    refine ⟨hlen, rfl, rfl, ?_⟩
    intro hcw' _
    exact absurd hcw' hcw

/-- C10: after a store into a working-memory set holding at most
`max_working_items` entries, the set again holds at most `max_working_items`
entries; the record store and the global weight index receive exactly the
stored entry (so every other id's record and indexed weight are untouched by
the eviction), and when the insertion overflows the capacity the entry
removed from the working set is one of minimal weight. -/
theorem working_memory_capacity_invariant (cfg : WorkingConfig) (s : HippoState)
    (id content : String) (critical urgent : Bool) (importance hint : ℚ)
    (hlen : s.working.length ≤ cfg.maxWorkingItems) :
    (storeMemoryH cfg s id content critical urgent importance hint).working.length ≤
        cfg.maxWorkingItems ∧
    (storeMemoryH cfg s id content critical urgent importance hint).memories =
        upsert id
          { content := content,
            weight := calculateInitialWeight content critical urgent importance hint }
          s.memories ∧
    (storeMemoryH cfg s id content critical urgent importance hint).weightIndex =
        upsert id (calculateInitialWeight content critical urgent importance hint)
          s.weightIndex ∧
    (∀ pid, pid ≠ id →
      lookupA pid (storeMemoryH cfg s id content critical urgent importance hint).memories =
          lookupA pid s.memories ∧
        lookupA pid (storeMemoryH cfg s id content critical urgent importance hint).weightIndex =
          lookupA pid s.weightIndex) ∧
    ((8 / 10 : ℚ) ≤ calculateInitialWeight content critical urgent importance hint →
      cfg.maxWorkingItems <
          (upsert id (calculateInitialWeight content critical urgent importance hint)
            s.working).length →
      ∃ m, m ∈ upsert id (calculateInitialWeight content critical urgent importance hint)
            s.working ∧
        (∀ q ∈ upsert id (calculateInitialWeight content critical urgent importance hint)
            s.working, m.2 ≤ q.2) ∧
        (storeMemoryH cfg s id content critical urgent importance hint).working =
          (upsert id (calculateInitialWeight content critical urgent importance hint)
            s.working).erase m) := by
  simp only [storeMemoryH]
  by_cases hcw : (8 / 10 : ℚ) ≤ calculateInitialWeight content critical urgent importance hint
  · rw [if_pos hcw]
    obtain ⟨hb, hm, hwi, hev⟩ := updateWorkingMemory_spec cfg
      { s with
        memories := upsert id
          { content := content,
            weight := calculateInitialWeight content critical urgent importance hint }
          s.memories
        weightIndex := upsert id
          (calculateInitialWeight content critical urgent importance hint) s.weightIndex }
      id (calculateInitialWeight content critical urgent importance hint) hlen
    refine ⟨hb, hm, hwi, ?_, fun h1 h2 => hev h1 h2⟩
    intro pid hpid
    rw [hm, hwi]
    exact ⟨lookupA_upsert_ne id pid _ hpid s.memories,
      lookupA_upsert_ne id pid _ hpid s.weightIndex⟩
  · rw [if_neg hcw]
    refine ⟨hlen, rfl, rfl, ?_, ?_⟩
    · intro pid hpid
      exact ⟨lookupA_upsert_ne id pid _ hpid s.memories,
        lookupA_upsert_ne id pid _ hpid s.weightIndex⟩
    · intro hcw' _
      exact absurd hcw' hcw

/-- C10 witness: storing into an empty working memory of capacity 1 keeps the
working set within capacity. -/
theorem working_memory_capacity_witness :
    (storeMemoryH { maxWorkingItems := 1 }
        { memories := [], weightIndex := [], working := [] }
        "a" "" false false 0 1).working.length ≤ 1 :=
  (working_memory_capacity_invariant { maxWorkingItems := 1 }
      { memories := [], weightIndex := [], working := [] }
      "a" "" false false 0 1 (by simp)).1
